import Mathlib

/-
Shallow embedding of src/main.py (a FastAPI blog-post CRUD API).

The store is the module-level list `posts`, holding Python dicts produced
by `model_dump()` of Pydantic models.  We embed Python dicts as ordered
association lists (insertion-ordered, as Python dicts are), the Pydantic
models as structures, and each handler as a pure function from the store
(plus its request data) to the new store and its response.  Python
`datetime` values are modelled as abstract ticks (`Nat`); `uuid4()` output
is modelled as an environment-supplied string, since the handler only
calls `str(uuid())` and never inspects it.
-/

namespace Blog

/-- A Python value as it appears in the `posts` store: every stored field is
a string, a datetime, `None`, or a bool. -/
inductive PyVal where
  | vStr (s : String)
  | vDatetime (t : Nat)
  | vNone
  | vBool (b : Bool)
deriving DecidableEq

/-- A Python dict: an insertion-ordered association list (keys unique by
construction of the operations below, as in Python). -/
abbrev Dict := List (String × PyVal)

/-- `d[key]` lookup: first entry whose key matches. -/
def dictGet : Dict → String → Option PyVal
  | [], _ => none
  | (k, v) :: d, key => if k = key then some v else dictGet d key

/-- The keys of a dict, in insertion order. -/
def dictKeys (d : Dict) : List String := d.map Prod.fst

/-- `d[k] = v`: replace the value at the first occurrence of `k` keeping its
position (as Python does), or append `(k, v)` if `k` is absent. -/
def dictSet : Dict → String → PyVal → Dict
  | [], k, v => [(k, v)]
  | (k0, v0) :: d, k, v =>
      if k0 = k then (k0, v) :: d else (k0, v0) :: dictSet d k v

/-- Python `d.update(u)`: set each entry of `u` in `d`, in `u`'s order. -/
def dictUpdate : Dict → Dict → Dict
  | d, [] => d
  | d, (k, v) :: u => dictUpdate (dictSet d k v) u

/-- The Pydantic model `Post` (main.py lines 45-52), after validation:
`id` is `Optional[str]`; `created_at` has already received its default if
the request omitted it (see `Post.fromRaw`); `published_at` defaults to
`None`; `published` defaults to `False`. -/
structure Post where
  id : Option String
  title : String
  author : String
  content : String
  created_at : Nat
  published_at : Option Nat
  published : Bool
deriving DecidableEq

/-- `post.model_dump()` for a `Post`: a dict with the seven fields in
declaration order. -/
def Post.model_dump (p : Post) : Dict :=
  [("id", match p.id with | some s => .vStr s | none => .vNone),
   ("title", .vStr p.title),
   ("author", .vStr p.author),
   ("content", .vStr p.content),
   ("created_at", .vDatetime p.created_at),
   ("published_at", match p.published_at with | some t => .vDatetime t | none => .vNone),
   ("published", .vBool p.published)]

/-- The Pydantic model `PostUpdate` (main.py lines 57-61): only title,
author, content, created_at. -/
structure PostUpdate where
  title : String
  author : String
  content : String
  created_at : Nat
deriving DecidableEq

/-- `updatedPost.model_dump()` for a `PostUpdate`: a dict with the four
fields in declaration order. -/
def PostUpdate.model_dump (u : PostUpdate) : Dict :=
  [("title", .vStr u.title),
   ("author", .vStr u.author),
   ("content", .vStr u.content),
   ("created_at", .vDatetime u.created_at)]

/-- A create-request JSON body before Pydantic fills in defaults: `none` in
`created_at` / `published_at` / `published` means the key was omitted
(`published_at` equally covers an explicit `null`). -/
structure RawPost where
  id : Option String
  title : String
  author : String
  content : String
  created_at : Option Nat
  published_at : Option Nat
  published : Option Bool
deriving DecidableEq

/-- Pydantic validation of a `Post` body.  The source declares
`created_at: datetime = datetime.now()` (line 50): the call runs ONCE, when
the class statement is executed at module import, so the default is
the timestamp `moduleLoadTime` taken at import, the same value for every
request, not a per-request clock reading.  We pass that import-time value as an
explicit parameter. -/
def Post.fromRaw (moduleLoadTime : Nat) (r : RawPost) : Post :=
  { id := r.id
    title := r.title
    author := r.author
    content := r.content
    created_at := r.created_at.getD moduleLoadTime
    published_at := r.published_at
    published := r.published.getD false }

/-- An update-request JSON body before defaults: `none` in `created_at`
means the key was omitted. -/
structure RawPostUpdate where
  title : String
  author : String
  content : String
  created_at : Option Nat
deriving DecidableEq

/-- Pydantic validation of a `PostUpdate` body.  Line 61 likewise evaluates
`datetime.now()` once at module import: an omitted `created_at` becomes the
fixed import-time timestamp `moduleLoadTime`. -/
def PostUpdate.fromRaw (moduleLoadTime : Nat) (r : RawPostUpdate) : PostUpdate :=
  { title := r.title
    author := r.author
    content := r.content
    created_at := r.created_at.getD moduleLoadTime }

/-- `HTTPException(status_code=..., detail=...)`. -/
structure HTTPError where
  status_code : Nat
  detail : String
deriving DecidableEq

/-- `create_post` (main.py lines 102-133): `post.id = str(uuid())` then
`posts.append(post.model_dump())`, returning only the confirmation message
(the created record is not echoed).  `genId` is the string `str(uuid())`
produced by the uuid library for this request. -/
def create_post (posts : List Dict) (post : Post) (genId : String) :
    List Dict × String :=
  (posts ++ [Post.model_dump { post with id := some genId }],
   "Post creado satisfactoriamente")

/-- `get_post_by_id` (main.py lines 138-162): linear scan for the first
record with `post["id"] == post_id`, else 404.  The handler never mutates
the store, which is why it takes the store and returns only the response. -/
def get_post_by_id : List Dict → String → Except HTTPError Dict
  | [], _ => .error ⟨404, "Post no encontrado"⟩
  | d :: ds, post_id =>
      if dictGet d "id" = some (.vStr post_id) then .ok d
      else get_post_by_id ds post_id

/-- `delete_post` (main.py lines 167-192): `enumerate` scan, `posts.pop` at
the first matching index, else 404. -/
def delete_post : List Dict → String → List Dict × Except HTTPError String
  | [], _ => ([], .error ⟨404, "Post no encontrado"⟩)
  | d :: ds, post_id =>
      if dictGet d "id" = some (.vStr post_id) then
        (ds, .ok "Post eliminado correctamente")
      else
        (d :: (delete_post ds post_id).1, (delete_post ds post_id).2)

/-- `update_post` (main.py lines 197-231): linear scan, then
`post.update(updatedPost.model_dump())` on the first matching record,
else 404. -/
def update_post : List Dict → String → PostUpdate → List Dict × Except HTTPError String
  | [], _, _ => ([], .error ⟨404, "Post no encontrado"⟩)
  | d :: ds, post_id, u =>
      if dictGet d "id" = some (.vStr post_id) then
        (dictUpdate d u.model_dump :: ds, .ok "Post actualizado correctamente")
      else
        (d :: (update_post ds post_id u).1, (update_post ds post_id u).2)

/-- One mutating API call against the store.  A create carries the id the
uuid library produced for it. -/
inductive Op where
  | create (p : Post) (genId : String)
  | update (pid : String) (u : PostUpdate)
  | delete (pid : String)
deriving DecidableEq

/-- The store after one handler call. -/
def applyOp (s : List Dict) : Op → List Dict
  | .create p g => (create_post s p g).1
  | .update pid u => (update_post s pid u).1
  | .delete pid => (delete_post s pid).1

/-- The store after a sequence of handler calls starting from `s`. -/
def runFrom (s : List Dict) : List Op → List Dict
  | [] => s
  | op :: ops => runFrom (applyOp s op) ops

/-- The `"id"` entry of a stored record. -/
def idOf (d : Dict) : Option PyVal := dictGet d "id"

/-- The ids of the store, in order. -/
def storeIds (s : List Dict) : List (Option PyVal) := s.map idOf

/-- A record carries a non-empty string id. -/
def validId (d : Dict) : Bool :=
  match dictGet d "id" with
  | some (.vStr x) => x != ""
  | _ => false

/-- Environment assumption on a run: the uuid library hands each create a
non-empty id not currently present in the store (what `uuid4()` provides
with overwhelming probability; the spec's unique-id invariant rests on it). -/
def freshRun : List Dict → List Op → Bool
  | _, [] => true
  | s, .create p g :: ops =>
      (g != "") && !(decide (some (.vStr g) ∈ storeIds s))
        && freshRun (applyOp s (.create p g)) ops
  | s, op :: ops => freshRun (applyOp s op) ops

/-- Whether an op is an update or delete aimed at id `g`. -/
def touches (op : Op) (g : String) : Bool :=
  match op with
  | .create _ _ => false
  | .update pid _ => pid == g
  | .delete pid => pid == g

/-- The seven keys of every stored record, in `model_dump` order. -/
def postKeys : List String :=
  ["id", "title", "author", "content", "created_at", "published_at", "published"]

/-! ### Dict lemmas -/

theorem dictGet_dictSet_self (d : Dict) (k : String) (v : PyVal) :
    dictGet (dictSet d k v) k = some v := by
  induction d with
  | nil => simp [dictSet, dictGet]
  | cons p d ih =>
      obtain ⟨k0, v0⟩ := p
      by_cases h : k0 = k
      · simp [dictSet, h, dictGet]
      · simp [dictSet, h, dictGet, ih]

theorem dictGet_dictSet_ne (d : Dict) (k k0 : String) (v : PyVal) (h : k0 ≠ k) :
    dictGet (dictSet d k v) k0 = dictGet d k0 := by
  induction d with
  | nil => simp [dictSet, dictGet, Ne.symm h]
  | cons p d ih =>
      obtain ⟨k1, v1⟩ := p
      by_cases h1 : k1 = k
      · subst h1
        simp [dictSet, dictGet, Ne.symm h]
      · by_cases h2 : k1 = k0
        · simp [dictSet, h1, dictGet, h2, h]
        · simp [dictSet, h1, dictGet, h2, ih]

theorem dictKeys_cons (x : String × PyVal) (l : Dict) :
    dictKeys (x :: l) = x.1 :: dictKeys l := rfl

theorem dictGet_eq_none_of_not_mem (u : Dict) (k : String) (h : k ∉ dictKeys u) :
    dictGet u k = none := by
  induction u with
  | nil => rfl
  | cons p u ih =>
      obtain ⟨k0, v0⟩ := p
      rw [dictKeys_cons, List.mem_cons] at h
      rw [dictGet, if_neg (fun hk => h (Or.inl hk.symm)),
        ih (fun hk => h (Or.inr hk))]

theorem mem_dictKeys_of_dictGet (u : Dict) (k : String) (v : PyVal)
    (h : dictGet u k = some v) : k ∈ dictKeys u := by
  induction u with
  | nil => exact absurd h (by rw [dictGet]; exact Option.noConfusion)
  | cons p u ih =>
      obtain ⟨k0, v0⟩ := p
      rw [dictKeys_cons, List.mem_cons]
      by_cases h0 : k0 = k
      · exact Or.inl h0.symm
      · rw [dictGet, if_neg h0] at h
        exact Or.inr (ih h)

theorem dictKeys_dictSet_mem (d : Dict) (k : String) (v : PyVal)
    (h : k ∈ dictKeys d) : dictKeys (dictSet d k v) = dictKeys d := by
  induction d with
  | nil => exact absurd h (List.not_mem_nil k)
  | cons p d ih =>
      obtain ⟨k0, v0⟩ := p
      by_cases h0 : k0 = k
      · rw [dictSet, if_pos h0, dictKeys_cons, dictKeys_cons]
      · rw [dictKeys_cons, List.mem_cons] at h
        have hd : k ∈ dictKeys d := by
          rcases h with h | h
          · exact absurd h.symm h0
          · exact h
        rw [dictSet, if_neg h0, dictKeys_cons, dictKeys_cons, ih hd]

theorem dictGet_dictUpdate_of_notin (u : Dict) (k : String) :
    ∀ d : Dict, dictGet u k = none → dictGet (dictUpdate d u) k = dictGet d k := by
  induction u with
  | nil => intro d _; rfl
  | cons p u ih =>
      obtain ⟨k0, v0⟩ := p
      intro d h
      by_cases h0 : k0 = k
      · rw [dictGet, if_pos h0] at h
        exact absurd h (Option.noConfusion)
      · rw [dictGet, if_neg h0] at h
        rw [dictUpdate, ih (dictSet d k0 v0) h,
          dictGet_dictSet_ne d k0 k v0 (fun h1 => h0 h1.symm)]

theorem dictGet_dictUpdate_of_mem (u : Dict) (k : String) (v : PyVal) :
    ∀ d : Dict, (dictKeys u).Nodup → dictGet u k = some v →
      dictGet (dictUpdate d u) k = some v := by
  induction u with
  | nil => intro d _ h; exact absurd h (by rw [dictGet]; exact Option.noConfusion)
  | cons p u ih =>
      obtain ⟨k0, v0⟩ := p
      intro d hnd h
      rw [dictKeys_cons, List.nodup_cons] at hnd
      by_cases h0 : k0 = k
      · subst h0
        rw [dictGet, if_pos rfl] at h
        have hu : dictGet u k0 = none := dictGet_eq_none_of_not_mem u k0 hnd.1
        rw [dictUpdate, dictGet_dictUpdate_of_notin u k0 _ hu, dictGet_dictSet_self]
        exact h
      · rw [dictGet, if_neg h0] at h
        rw [dictUpdate]
        exact ih (dictSet d k0 v0) hnd.2 h

theorem dictKeys_dictUpdate_of_sub (u : Dict) :
    ∀ d : Dict, (∀ k ∈ dictKeys u, k ∈ dictKeys d) →
      dictKeys (dictUpdate d u) = dictKeys d := by
  induction u with
  | nil => intro d _; rfl
  | cons p u ih =>
      obtain ⟨k0, v0⟩ := p
      intro d h
      have hk0 : k0 ∈ dictKeys d := h k0 (by rw [dictKeys_cons]; exact List.mem_cons_self _ _)
      have hset := dictKeys_dictSet_mem d k0 v0 hk0
      rw [dictUpdate, ih (dictSet d k0 v0) (fun k hk => by
        rw [hset]
        exact h k (by rw [dictKeys_cons]; exact List.mem_cons_of_mem _ hk)), hset]

/-! ### `model_dump` facts -/

theorem post_dump_keys (p : Post) : dictKeys (Post.model_dump p) = postKeys := rfl

theorem upd_dump_keys (u : PostUpdate) :
    dictKeys (PostUpdate.model_dump u) = ["title", "author", "content", "created_at"] := rfl

theorem upd_dump_keys_nodup (u : PostUpdate) :
    (dictKeys (PostUpdate.model_dump u)).Nodup := by
  rw [upd_dump_keys]
  decide

theorem upd_dump_get_title (u : PostUpdate) :
    dictGet (PostUpdate.model_dump u) "title" = some (.vStr u.title) := rfl

theorem upd_dump_get_author (u : PostUpdate) :
    dictGet (PostUpdate.model_dump u) "author" = some (.vStr u.author) := rfl

theorem upd_dump_get_content (u : PostUpdate) :
    dictGet (PostUpdate.model_dump u) "content" = some (.vStr u.content) := rfl

theorem upd_dump_get_created_at (u : PostUpdate) :
    dictGet (PostUpdate.model_dump u) "created_at" = some (.vDatetime u.created_at) := rfl

theorem upd_dump_get_id (u : PostUpdate) :
    dictGet (PostUpdate.model_dump u) "id" = none := rfl

theorem upd_dump_get_published (u : PostUpdate) :
    dictGet (PostUpdate.model_dump u) "published" = none := rfl

theorem upd_dump_get_published_at (u : PostUpdate) :
    dictGet (PostUpdate.model_dump u) "published_at" = none := rfl

theorem post_dump_get_id (p : Post) (g : String) :
    dictGet (Post.model_dump { p with id := some g }) "id" = some (.vStr g) := rfl

/-- The merge `post.update(updatedPost.model_dump())` never touches the
`"id"` entry. -/
theorem idOf_merge (d : Dict) (u : PostUpdate) :
    idOf (dictUpdate d (PostUpdate.model_dump u)) = idOf d :=
  dictGet_dictUpdate_of_notin (PostUpdate.model_dump u) "id" d (upd_dump_get_id u)

/-! ### Handler scan lemmas -/

theorem get_post_by_id_first (pid : String) (d : Dict) (suf : List Dict)
    (hd : dictGet d "id" = some (.vStr pid)) :
    ∀ pre : List Dict, (∀ d' ∈ pre, dictGet d' "id" ≠ some (.vStr pid)) →
      get_post_by_id (pre ++ d :: suf) pid = .ok d := by
  intro pre
  induction pre with
  | nil =>
      intro _
      rw [List.nil_append, get_post_by_id, if_pos hd]
  | cons p pre ih =>
      intro hpre
      rw [List.cons_append, get_post_by_id,
        if_neg (hpre p (List.mem_cons_self p pre)),
        ih (fun d' hd' => hpre d' (List.mem_cons_of_mem p hd'))]

theorem get_post_by_id_nomatch (pid : String) :
    ∀ s : List Dict, (∀ d ∈ s, dictGet d "id" ≠ some (.vStr pid)) →
      get_post_by_id s pid = .error ⟨404, "Post no encontrado"⟩ := by
  intro s
  induction s with
  | nil => intro _; rfl
  | cons d ds ih =>
      intro h
      rw [get_post_by_id, if_neg (h d (List.mem_cons_self d ds)),
        ih (fun d' hd' => h d' (List.mem_cons_of_mem d hd'))]

theorem get_post_by_id_error_iff (pid : String) :
    ∀ s : List Dict,
      (get_post_by_id s pid = .error ⟨404, "Post no encontrado"⟩ ↔
        ∀ d ∈ s, dictGet d "id" ≠ some (.vStr pid)) := by
  intro s
  induction s with
  | nil => simp [get_post_by_id]
  | cons d ds ih =>
      by_cases h : dictGet d "id" = some (.vStr pid)
      · simp [get_post_by_id, h]
      · simp [get_post_by_id, h, ih]

theorem delete_post_first (pid : String) (d : Dict) (suf : List Dict)
    (hd : dictGet d "id" = some (.vStr pid)) :
    ∀ pre : List Dict, (∀ d' ∈ pre, dictGet d' "id" ≠ some (.vStr pid)) →
      delete_post (pre ++ d :: suf) pid = (pre ++ suf, .ok "Post eliminado correctamente") := by
  intro pre
  induction pre with
  | nil =>
      intro _
      rw [List.nil_append, List.nil_append, delete_post, if_pos hd]
  | cons p pre ih =>
      intro hpre
      rw [List.cons_append, delete_post,
        if_neg (hpre p (List.mem_cons_self p pre)),
        ih (fun d' hd' => hpre d' (List.mem_cons_of_mem p hd'))]
      rfl

theorem delete_post_nomatch (pid : String) :
    ∀ s : List Dict, (∀ d ∈ s, dictGet d "id" ≠ some (.vStr pid)) →
      delete_post s pid = (s, .error ⟨404, "Post no encontrado"⟩) := by
  intro s
  induction s with
  | nil => intro _; rfl
  | cons d ds ih =>
      intro h
      rw [delete_post, if_neg (h d (List.mem_cons_self d ds)),
        ih (fun d' hd' => h d' (List.mem_cons_of_mem d hd'))]

theorem delete_post_error_iff (pid : String) :
    ∀ s : List Dict,
      ((delete_post s pid).2 = .error ⟨404, "Post no encontrado"⟩ ↔
        ∀ d ∈ s, dictGet d "id" ≠ some (.vStr pid)) := by
  intro s
  induction s with
  | nil => simp [delete_post]
  | cons d ds ih =>
      by_cases h : dictGet d "id" = some (.vStr pid)
      · simp [delete_post, h]
      · simp [delete_post, h, ih]

theorem update_post_first (pid : String) (d : Dict) (suf : List Dict) (u : PostUpdate)
    (hd : dictGet d "id" = some (.vStr pid)) :
    ∀ pre : List Dict, (∀ d' ∈ pre, dictGet d' "id" ≠ some (.vStr pid)) →
      update_post (pre ++ d :: suf) pid u =
        (pre ++ dictUpdate d u.model_dump :: suf, .ok "Post actualizado correctamente") := by
  intro pre
  induction pre with
  | nil =>
      intro _
      rw [List.nil_append, List.nil_append, update_post, if_pos hd]
  | cons p pre ih =>
      intro hpre
      rw [List.cons_append, update_post,
        if_neg (hpre p (List.mem_cons_self p pre)),
        ih (fun d' hd' => hpre d' (List.mem_cons_of_mem p hd')), List.cons_append]

theorem update_post_nomatch (pid : String) (u : PostUpdate) :
    ∀ s : List Dict, (∀ d ∈ s, dictGet d "id" ≠ some (.vStr pid)) →
      update_post s pid u = (s, .error ⟨404, "Post no encontrado"⟩) := by
  intro s
  induction s with
  | nil => intro _; rfl
  | cons d ds ih =>
      intro h
      rw [update_post, if_neg (h d (List.mem_cons_self d ds)),
        ih (fun d' hd' => h d' (List.mem_cons_of_mem d hd'))]

theorem update_post_error_iff (pid : String) (u : PostUpdate) :
    ∀ s : List Dict,
      ((update_post s pid u).2 = .error ⟨404, "Post no encontrado"⟩ ↔
        ∀ d ∈ s, dictGet d "id" ≠ some (.vStr pid)) := by
  intro s
  induction s with
  | nil => simp [update_post]
  | cons d ds ih =>
      by_cases h : dictGet d "id" = some (.vStr pid)
      · simp [update_post, h]
      · simp [update_post, h, ih]

/-! ### Store-shape lemmas for the reachability invariants -/

theorem validId_merge (d : Dict) (u : PostUpdate) :
    validId (dictUpdate d (PostUpdate.model_dump u)) = validId d := by
  rw [validId, validId, show dictGet (dictUpdate d (PostUpdate.model_dump u)) "id"
    = dictGet d "id" from idOf_merge d u]

theorem storeIds_update (pid : String) (u : PostUpdate) :
    ∀ s : List Dict, storeIds (update_post s pid u).1 = storeIds s := by
  intro s
  induction s with
  | nil => rfl
  | cons d ds ih =>
      by_cases h : dictGet d "id" = some (.vStr pid)
      · simp [update_post, h, storeIds, idOf_merge]
      · simp only [update_post, if_neg h]
        simp [storeIds] at ih ⊢
        exact ih

theorem update_post_mem (pid : String) (u : PostUpdate) :
    ∀ (s : List Dict) (d' : Dict), d' ∈ (update_post s pid u).1 →
      ∃ d ∈ s, d' = d ∨ d' = dictUpdate d (PostUpdate.model_dump u) := by
  intro s
  induction s with
  | nil => intro d' h; exact absurd h (List.not_mem_nil d')
  | cons d ds ih =>
      intro d' h
      by_cases hm : dictGet d "id" = some (.vStr pid)
      · rw [update_post, if_pos hm] at h
        rcases List.mem_cons.mp h with h | h
        · exact ⟨d, List.mem_cons_self d ds, Or.inr h⟩
        · exact ⟨d', List.mem_cons_of_mem d h, Or.inl rfl⟩
      · rw [update_post, if_neg hm] at h
        rcases List.mem_cons.mp h with h | h
        · exact ⟨d, List.mem_cons_self d ds, Or.inl h⟩
        · obtain ⟨d0, hd0, hor⟩ := ih d' h
          exact ⟨d0, List.mem_cons_of_mem d hd0, hor⟩

theorem delete_post_sublist (pid : String) :
    ∀ s : List Dict, (delete_post s pid).1.Sublist s := by
  intro s
  induction s with
  | nil => exact List.Sublist.refl []
  | cons d ds ih =>
      by_cases h : dictGet d "id" = some (.vStr pid)
      · rw [delete_post, if_pos h]
        exact List.sublist_cons_self d ds
      · rw [delete_post, if_neg h]
        exact ih.cons₂ d

theorem storeIds_create (s : List Dict) (p : Post) (g : String) :
    storeIds (create_post s p g).1
      = storeIds s ++ [some (.vStr g)] := by
  simp [create_post, storeIds, idOf]
  rfl

theorem validId_create_dump (p : Post) (g : String) :
    validId (Post.model_dump { p with id := some g }) = (g != "") := rfl

/-- Unique, non-empty ids are preserved along any run whose create steps
receive fresh ids. -/
theorem uniqueIds_runFrom :
    ∀ (ops : List Op) (s : List Dict),
      (storeIds s).Nodup → (∀ d ∈ s, validId d = true) → freshRun s ops = true →
      (storeIds (runFrom s ops)).Nodup ∧ ∀ d ∈ runFrom s ops, validId d = true := by
  intro ops
  induction ops with
  | nil => intro s h1 h2 _; exact ⟨h1, h2⟩
  | cons op ops ih =>
      intro s h1 h2 hf
      cases op with
      | create p g =>
          rw [freshRun] at hf
          have hf1 : g != "" := by
            cases hg : g != "" <;> simp [hg] at hf ⊢
          have hf2 : some (PyVal.vStr g) ∉ storeIds s := by
            by_cases hg : some (PyVal.vStr g) ∈ storeIds s
            · simp [hg] at hf
            · exact hg
          have hf3 : freshRun (applyOp s (.create p g)) ops = true := by
            cases hg : freshRun (applyOp s (.create p g)) ops
            · simp [hg] at hf
            · rfl
          rw [runFrom]
          refine ih (applyOp s (.create p g)) ?_ ?_ hf3
          · rw [applyOp, storeIds_create]
            simp [List.nodup_append, h1, hf2]
          · intro d hd
            rw [applyOp, create_post] at hd
            rcases List.mem_append.mp hd with hd | hd
            · exact h2 d hd
            · rw [List.mem_singleton.mp hd, validId_create_dump]
              exact hf1
      | update pid u =>
          simp only [freshRun] at hf
          rw [runFrom]
          refine ih (applyOp s (.update pid u)) ?_ ?_ hf
          · rw [applyOp, storeIds_update]
            exact h1
          · intro d hd
            obtain ⟨d0, hd0, hor⟩ := update_post_mem pid u s d hd
            rcases hor with h | h
            · rw [h]; exact h2 d0 hd0
            · rw [h, validId_merge]; exact h2 d0 hd0
      | delete pid =>
          simp only [freshRun] at hf
          rw [runFrom]
          refine ih (applyOp s (.delete pid)) ?_ ?_ hf
          · exact ((delete_post_sublist pid s).map idOf).nodup h1
          · intro d hd
            exact h2 d ((delete_post_sublist pid s).subset hd)

/-- The merge keeps the record's key set when the record already has all
four `PostUpdate` keys. -/
theorem merge_keys (d : Dict) (u : PostUpdate) (hd : dictKeys d = postKeys) :
    dictKeys (dictUpdate d (PostUpdate.model_dump u)) = postKeys := by
  have hsub : ∀ k ∈ dictKeys (PostUpdate.model_dump u), k ∈ dictKeys d := by
    rw [upd_dump_keys, hd]
    decide
  rw [dictKeys_dictUpdate_of_sub _ d hsub, hd]

/-- Every record of a reachable store carries exactly the seven `Post`
keys, whatever the run. -/
theorem postKeys_runFrom :
    ∀ (ops : List Op) (s : List Dict),
      (∀ d ∈ s, dictKeys d = postKeys) →
      ∀ d ∈ runFrom s ops, dictKeys d = postKeys := by
  intro ops
  induction ops with
  | nil => intro s h; exact h
  | cons op ops ih =>
      intro s h
      rw [runFrom]
      refine ih (applyOp s op) ?_
      cases op with
      | create p g =>
          intro d hd
          rw [applyOp, create_post] at hd
          rcases List.mem_append.mp hd with hd | hd
          · exact h d hd
          · rw [List.mem_singleton.mp hd]
            exact post_dump_keys _
      | update pid u =>
          intro d hd
          obtain ⟨d0, hd0, hor⟩ := update_post_mem pid u s d hd
          rcases hor with he | he
          · rw [he]; exact h d0 hd0
          · rw [he]; exact merge_keys d0 u (h d0 hd0)
      | delete pid =>
          intro d hd
          exact h d ((delete_post_sublist pid s).subset hd)

/-! ### Get-preservation lemmas (create-then-get round trip) -/

theorem get_append_left (pid : String) (t : List Dict) :
    ∀ (s : List Dict) (d : Dict), get_post_by_id s pid = .ok d →
      get_post_by_id (s ++ t) pid = .ok d := by
  intro s
  induction s with
  | nil => intro d h; exact absurd h (by rw [get_post_by_id]; exact Except.noConfusion)
  | cons a s ih =>
      intro d h
      by_cases ha : dictGet a "id" = some (.vStr pid)
      · rw [get_post_by_id, if_pos ha] at h
        rw [List.cons_append, get_post_by_id, if_pos ha]
        exact h
      · rw [get_post_by_id, if_neg ha] at h
        rw [List.cons_append, get_post_by_id, if_neg ha]
        exact ih d h

theorem get_update_ne (pid g : String) (u : PostUpdate) (hne : pid ≠ g) :
    ∀ s : List Dict,
      get_post_by_id (update_post s pid u).1 g = get_post_by_id s g := by
  intro s
  induction s with
  | nil => rfl
  | cons d ds ih =>
      by_cases h : dictGet d "id" = some (.vStr pid)
      · have hg : dictGet d "id" ≠ some (.vStr g) := by
          rw [h]
          intro hc
          exact hne (PyVal.vStr.injEq pid g ▸ (Option.some.injEq _ _ ▸ hc))
        have hg2 : dictGet (dictUpdate d (PostUpdate.model_dump u)) "id"
            ≠ some (.vStr g) := by
          rw [show dictGet (dictUpdate d (PostUpdate.model_dump u)) "id"
            = dictGet d "id" from idOf_merge d u]
          exact hg
        rw [update_post, if_pos h, get_post_by_id, if_neg hg2,
          get_post_by_id, if_neg hg]
      · by_cases hg : dictGet d "id" = some (.vStr g)
        · rw [update_post, if_neg h, get_post_by_id, if_pos hg,
            get_post_by_id, if_pos hg]
        · rw [update_post, if_neg h, get_post_by_id, if_neg hg,
            get_post_by_id, if_neg hg]
          exact ih

theorem get_delete_ne (pid g : String) (hne : pid ≠ g) :
    ∀ s : List Dict,
      get_post_by_id (delete_post s pid).1 g = get_post_by_id s g := by
  intro s
  induction s with
  | nil => rfl
  | cons d ds ih =>
      by_cases h : dictGet d "id" = some (.vStr pid)
      · have hg : dictGet d "id" ≠ some (.vStr g) := by
          rw [h]
          intro hc
          exact hne (PyVal.vStr.injEq pid g ▸ (Option.some.injEq _ _ ▸ hc))
        rw [delete_post, if_pos h, get_post_by_id, if_neg hg]
      · by_cases hg : dictGet d "id" = some (.vStr g)
        · rw [delete_post, if_neg h, get_post_by_id, if_pos hg,
            get_post_by_id, if_pos hg]
        · rw [delete_post, if_neg h, get_post_by_id, if_neg hg,
            get_post_by_id, if_neg hg]
          exact ih

theorem get_runFrom_preserved (g : String) (d : Dict) :
    ∀ (ops : List Op) (s : List Dict),
      get_post_by_id s g = .ok d → (∀ op ∈ ops, touches op g = false) →
      get_post_by_id (runFrom s ops) g = .ok d := by
  intro ops
  induction ops with
  | nil => intro s h _; exact h
  | cons op ops ih =>
      intro s h hops
      rw [runFrom]
      refine ih (applyOp s op) ?_ (fun o ho => hops o (List.mem_cons_of_mem op ho))
      have hop := hops op (List.mem_cons_self op ops)
      cases op with
      | create p gid =>
          rw [applyOp, create_post]
          exact get_append_left g _ s d h
      | update pid u =>
          have hne : pid ≠ g := by
            rw [touches] at hop
            simpa using hop
          rw [applyOp, get_update_ne pid g u hne]
          exact h
      | delete pid =>
          have hne : pid ≠ g := by
            rw [touches] at hop
            simpa using hop
          rw [applyOp, get_delete_ne pid g hne]
          exact h

/-! ### Concrete sample data -/

def exPostA : Post :=
  { id := some "client-id", title := "A", author := "AA", content := "CA",
    created_at := 1, published_at := none, published := false }

def exPostB : Post :=
  { id := none, title := "B", author := "AB", content := "CB",
    created_at := 2, published_at := some 3, published := true }

def exU : PostUpdate :=
  { title := "T2", author := "AU2", content := "C2", created_at := 9 }

def exRawU : RawPostUpdate :=
  { title := "T2", author := "AU2", content := "C2", created_at := none }

def exRaw : RawPost :=
  { id := none, title := "t", author := "a", content := "c",
    created_at := none, published_at := none, published := none }

def exA : Dict := Post.model_dump { exPostA with id := some "a" }

def exB : Dict := Post.model_dump { exPostB with id := some "b" }

def exC : Dict := Post.model_dump { exPostA with id := some "c" }

def exOps : List Op :=
  [.create exPostA "g1", .create exPostB "g2", .update "g1" exU, .delete "g2"]

/-! ### The claims -/

/-- C1: when the store has a post whose id equals the path parameter (and,
per the unique-id invariant, no earlier record matches it), a successful
update replaces exactly that record by the merge of the four `PostUpdate`
fields into it — title, author, content, created_at are overwritten with
the payload values, while id, published and published_at keep their
previously stored values — returns the confirmation, and leaves every
other record of the store unchanged and in place. -/
theorem claim1_update_found_frame (pre suf : List Dict) (d : Dict) (pid : String)
    (u : PostUpdate)
    (hpre : ∀ d' ∈ pre, dictGet d' "id" ≠ some (.vStr pid))
    (hd : dictGet d "id" = some (.vStr pid)) :
    update_post (pre ++ d :: suf) pid u
        = (pre ++ dictUpdate d u.model_dump :: suf, .ok "Post actualizado correctamente")
      ∧ dictGet (dictUpdate d u.model_dump) "title" = some (.vStr u.title)
      ∧ dictGet (dictUpdate d u.model_dump) "author" = some (.vStr u.author)
      ∧ dictGet (dictUpdate d u.model_dump) "content" = some (.vStr u.content)
      ∧ dictGet (dictUpdate d u.model_dump) "created_at" = some (.vDatetime u.created_at)
      ∧ dictGet (dictUpdate d u.model_dump) "id" = dictGet d "id"
      ∧ dictGet (dictUpdate d u.model_dump) "published" = dictGet d "published"
      ∧ dictGet (dictUpdate d u.model_dump) "published_at" = dictGet d "published_at" := by
  refine ⟨update_post_first pid d suf u hd pre hpre, ?_, ?_, ?_, ?_, ?_, ?_, ?_⟩
  · exact dictGet_dictUpdate_of_mem _ "title" _ d (upd_dump_keys_nodup u) (upd_dump_get_title u)
  · exact dictGet_dictUpdate_of_mem _ "author" _ d (upd_dump_keys_nodup u) (upd_dump_get_author u)
  · exact dictGet_dictUpdate_of_mem _ "content" _ d (upd_dump_keys_nodup u) (upd_dump_get_content u)
  · exact dictGet_dictUpdate_of_mem _ "created_at" _ d (upd_dump_keys_nodup u)
      (upd_dump_get_created_at u)
  · exact dictGet_dictUpdate_of_notin _ "id" d (upd_dump_get_id u)
  · exact dictGet_dictUpdate_of_notin _ "published" d (upd_dump_get_published u)
  · exact dictGet_dictUpdate_of_notin _ "published_at" d (upd_dump_get_published_at u)

/-- C1 witness at a three-record store, updating the middle record. -/
theorem claim1_witness :
    update_post [exA, exB, exC] "b" exU
        = ([exA, dictUpdate exB exU.model_dump, exC], .ok "Post actualizado correctamente")
      ∧ dictGet (dictUpdate exB exU.model_dump) "id" = dictGet exB "id" := by
  have h := claim1_update_found_frame [exA] [exC] exB "b" exU (by decide) (by decide)
  exact ⟨h.1, h.2.2.2.2.2.1⟩

/-- C2: the claim says a create payload that omits created_at receives the
server's current time at request construction.  The code declares
`created_at: datetime = datetime.now()` (line 50), whose right-hand side is
evaluated once, when the class statement runs at module import: the stored
default is the import-time timestamp, identical for every later request,
not a per-request clock reading.  Evaluating the validator at import ticks
0 and 7 on a payload omitting created_at shows the result tracks the time
of import and is independent of any request-time instant. -/
theorem claim2_created_at_module_load :
    (Post.fromRaw 0 exRaw).created_at = 0
    ∧ (Post.fromRaw 7 exRaw).created_at = 7
    ∧ exRaw.created_at = none :=
  ⟨rfl, rfl, rfl⟩

/-- C3: for every store, every validated payload (whatever client id it
carries) and every generated id, create overwrites the id with the
generated one, appends the dumped record at the end of the store leaving
all earlier records in place, and returns only the confirmation message
(the response type carries no record). -/
theorem claim3_create_post (posts : List Dict) (post : Post) (genId : String) :
    create_post posts post genId
        = (posts ++ [Post.model_dump { post with id := some genId }],
           "Post creado satisfactoriamente")
      ∧ dictGet (Post.model_dump { post with id := some genId }) "id"
          = some (.vStr genId) :=
  ⟨rfl, post_dump_get_id post genId⟩

/-- C4: create a post with a fresh id `g`, then run any further operations
none of which updates or deletes `g`: get-by-id on `g` returns the created
record, whose title, author and content are the created payload's values. -/
theorem claim4_create_then_get (s : List Dict) (p : Post) (g : String) (ops : List Op)
    (hg : ∀ d ∈ s, dictGet d "id" ≠ some (.vStr g))
    (hops : ∀ op ∈ ops, touches op g = false) :
    get_post_by_id (runFrom (create_post s p g).1 ops) g
        = .ok (Post.model_dump { p with id := some g })
      ∧ dictGet (Post.model_dump { p with id := some g }) "title" = some (.vStr p.title)
      ∧ dictGet (Post.model_dump { p with id := some g }) "author" = some (.vStr p.author)
      ∧ dictGet (Post.model_dump { p with id := some g }) "content"
          = some (.vStr p.content) := by
  refine ⟨?_, rfl, rfl, rfl⟩
  refine get_runFrom_preserved g _ ops (create_post s p g).1 ?_ hops
  exact get_post_by_id_first g _ [] (post_dump_get_id p g) s hg

/-- C4 witness: create, then a second create and an unrelated delete. -/
theorem claim4_witness :
    get_post_by_id
        (runFrom (create_post [] exPostA "g1").1 [.create exPostB "g2", .delete "g2"]) "g1"
      = .ok (Post.model_dump { exPostA with id := some "g1" }) :=
  (claim4_create_then_get [] exPostA "g1" [.create exPostB "g2", .delete "g2"]
    (by decide) (by decide)).1

/-- C5: get-by-id returns the first record whose id equals the path
parameter (exact string equality) when one exists, and yields 404 with
detail "Post no encontrado" exactly when no record matches.  The handler
is a pure function of the store (the source reads but never mutates
`posts`), so the store is unchanged in both cases by construction. -/
theorem claim5_get_post (s : List Dict) (pid : String) :
    (∀ pre d suf, s = pre ++ d :: suf →
        (∀ d' ∈ pre, dictGet d' "id" ≠ some (.vStr pid)) →
        dictGet d "id" = some (.vStr pid) →
        get_post_by_id s pid = .ok d)
    ∧ (get_post_by_id s pid = .error ⟨404, "Post no encontrado"⟩ ↔
        ∀ d ∈ s, dictGet d "id" ≠ some (.vStr pid)) := by
  constructor
  · intro pre d suf hs hpre hd
    rw [hs]
    exact get_post_by_id_first pid d suf hd pre hpre
  · exact get_post_by_id_error_iff pid s

/-- C5 witness: a hit on the second record and a miss. -/
theorem claim5_witness :
    get_post_by_id [exA, exB] "b" = .ok exB
    ∧ get_post_by_id [exA, exB] "zz" = .error ⟨404, "Post no encontrado"⟩ := by
  constructor
  · exact (claim5_get_post [exA, exB] "b").1 [exA] exB [] rfl (by decide) (by decide)
  · exact (claim5_get_post [exA, exB] "zz").2.mpr (by decide)

/-- C6: delete removes exactly the first matching record — the store loses
one element, every other record stays in order, and a subsequent get on
that id (no duplicate exists under the unique-id invariant) yields 404 —
and returns the confirmation; with no matching record it returns 404 with
detail "Post no encontrado" and the store is unchanged, and the 404 occurs
exactly when no record matches. -/
theorem claim6_delete_post (s : List Dict) (pid : String) :
    (∀ pre d suf, s = pre ++ d :: suf →
        (∀ d' ∈ pre, dictGet d' "id" ≠ some (.vStr pid)) →
        dictGet d "id" = some (.vStr pid) →
        (∀ d' ∈ suf, dictGet d' "id" ≠ some (.vStr pid)) →
        delete_post s pid = (pre ++ suf, .ok "Post eliminado correctamente")
        ∧ (pre ++ suf).length + 1 = s.length
        ∧ get_post_by_id (pre ++ suf) pid = .error ⟨404, "Post no encontrado"⟩)
    ∧ ((∀ d ∈ s, dictGet d "id" ≠ some (.vStr pid)) →
        delete_post s pid = (s, .error ⟨404, "Post no encontrado"⟩))
    ∧ ((delete_post s pid).2 = .error ⟨404, "Post no encontrado"⟩ ↔
        ∀ d ∈ s, dictGet d "id" ≠ some (.vStr pid)) := by
  refine ⟨?_, delete_post_nomatch pid s, delete_post_error_iff pid s⟩
  intro pre d suf hs hpre hd hsuf
  subst hs
  refine ⟨delete_post_first pid d suf hd pre hpre, ?_, ?_⟩
  · simp [List.length_append]
    omega
  · exact get_post_by_id_nomatch pid (pre ++ suf) (fun d' hd' => by
      rcases List.mem_append.mp hd' with h | h
      · exact hpre d' h
      · exact hsuf d' h)

/-- C6 witness: delete the first of two records, then a missing id. -/
theorem claim6_witness :
    delete_post [exA, exB] "a" = ([exB], .ok "Post eliminado correctamente")
    ∧ get_post_by_id [exB] "a" = .error ⟨404, "Post no encontrado"⟩
    ∧ delete_post [exA, exB] "zz" = ([exA, exB], .error ⟨404, "Post no encontrado"⟩) := by
  have h := (claim6_delete_post [exA, exB] "a").1 [] exA [exB] rfl (by decide) (by decide)
    (by decide)
  exact ⟨h.1, h.2.2, (claim6_delete_post [exA, exB] "zz").2.1 (by decide)⟩

/-- C7: update on an id with no matching record returns 404 with detail
"Post no encontrado" and leaves the store exactly as it was (same list,
hence same length and contents). -/
theorem claim7_update_missing (s : List Dict) (pid : String) (u : PostUpdate)
    (h : ∀ d ∈ s, dictGet d "id" ≠ some (.vStr pid)) :
    update_post s pid u = (s, .error ⟨404, "Post no encontrado"⟩)
    ∧ (update_post s pid u).1.length = s.length := by
  refine ⟨update_post_nomatch pid u s h, ?_⟩
  rw [update_post_nomatch pid u s h]

/-- C7 witness. -/
theorem claim7_witness :
    update_post [exA, exB] "zz" exU = ([exA, exB], .error ⟨404, "Post no encontrado"⟩) :=
  (claim7_update_missing [exA, exB] "zz" exU (by decide)).1

/-- C8: starting from the empty store, after any sequence of create,
update and delete calls whose creates receive fresh non-empty ids from the
uuid generator (the `freshRun` environment assumption — the spec's "freshly
generated, previously unseen identifier" is exactly what `uuid4()`
provides), every stored post has a non-empty string id and the ids are
pairwise distinct. -/
theorem claim8_unique_ids (ops : List Op) (h : freshRun [] ops = true) :
    (storeIds (runFrom [] ops)).Nodup
    ∧ ∀ d ∈ runFrom [] ops, validId d = true :=
  uniqueIds_runFrom ops [] List.nodup_nil (fun d hd => absurd hd (List.not_mem_nil d)) h

/-- C8 witness: a four-operation run. -/
theorem claim8_witness :
    (storeIds (runFrom [] exOps)).Nodup
    ∧ ∀ d ∈ runFrom [] exOps, validId d = true :=
  claim8_unique_ids exOps (by decide)

/-- C9: an update body that omits created_at is completed by Pydantic with
the fixed default captured once at module import (line 61), and the merge
then overwrites the stored record's created_at with that fixed default
instead of preserving the stored value — so the update changes the stored
created_at whenever it differed from the default. -/
theorem claim9_update_omitted_created_at (mt : Nat) (r : RawPostUpdate)
    (pre suf : List Dict) (d : Dict) (pid : String)
    (hr : r.created_at = none)
    (hpre : ∀ d' ∈ pre, dictGet d' "id" ≠ some (.vStr pid))
    (hd : dictGet d "id" = some (.vStr pid)) :
    (PostUpdate.fromRaw mt r).created_at = mt
    ∧ (update_post (pre ++ d :: suf) pid (PostUpdate.fromRaw mt r)).1
        = pre ++ dictUpdate d (PostUpdate.fromRaw mt r).model_dump :: suf
    ∧ dictGet (dictUpdate d (PostUpdate.fromRaw mt r).model_dump) "created_at"
        = some (.vDatetime mt)
    ∧ ∀ t0, dictGet d "created_at" = some (.vDatetime t0) → t0 ≠ mt →
        dictGet (dictUpdate d (PostUpdate.fromRaw mt r).model_dump) "created_at"
          ≠ some (.vDatetime t0) := by
  have h1 : (PostUpdate.fromRaw mt r).created_at = mt := by
    simp [PostUpdate.fromRaw, hr]
  have h3 := dictGet_dictUpdate_of_mem ((PostUpdate.fromRaw mt r).model_dump)
    "created_at" (.vDatetime (PostUpdate.fromRaw mt r).created_at) d
    (upd_dump_keys_nodup _) (upd_dump_get_created_at _)
  rw [h1] at h3
  refine ⟨h1, by rw [update_post_first pid d suf _ hd pre hpre], h3, ?_⟩
  intro t0 _ hne hc
  rw [h3] at hc
  simp only [Option.some.injEq, PyVal.vDatetime.injEq] at hc
  exact hne hc.symm

/-- C9 witness: module default 5, omitted created_at, stored record with a
different created_at. -/
theorem claim9_witness :
    (PostUpdate.fromRaw 5 exRawU).created_at = 5
    ∧ dictGet (dictUpdate exB (PostUpdate.fromRaw 5 exRawU).model_dump) "created_at"
        = some (.vDatetime 5) := by
  have h := claim9_update_omitted_created_at 5 exRawU [exA] [] exB "b" rfl
    (by decide) (by decide)
  exact ⟨h.1, h.2.2.1⟩

/-- C10: from the empty store, any sequence of create, update and delete
calls keeps every stored record on exactly the seven `Post` keys in
`model_dump` order: create inserts a full dump and the update merge only
overwrites four keys that are already present. -/
theorem claim10_post_keys (ops : List Op) :
    ∀ d ∈ runFrom [] ops, dictKeys d = postKeys :=
  postKeys_runFrom ops [] (fun d hd => absurd hd (List.not_mem_nil d))

/-- C10 witness: the record created by a single create. -/
theorem claim10_witness :
    dictKeys (Post.model_dump { exPostA with id := some "g1" }) = postKeys :=
  claim10_post_keys [.create exPostA "g1"]
    (Post.model_dump { exPostA with id := some "g1" }) (by decide)

end Blog
